import Mathlib

/-!
# Verification of the rsk-rust-cli keystore subsystem

Shallow embedding, in Lean 4, of the keystore core of the `rsk-rust-cli`
repository: the wallet registry (`src/types/wallet.rs`, `WalletData` and its
mutations), the command layer over it (`src/commands/wallet.rs`), the
password-based encryption of private keys (`Wallet::encrypt_private_key` /
`Wallet::decrypt_private_key`), the receipt-polling loop of the transfer
command (`src/commands/transfer.rs`), and the balance checks of
`EthClient::send_transaction` (`src/utils/eth.rs`).

Conventions of the embedding:
* Rust `u8` bytes are `Nat` values (< 256 in real executions); `U256`
  quantities are `Nat` (ruint `U256` arithmetic panics on overflow rather
  than wrapping, so the non-panicking executions agree with `Nat`).
* `HashMap<String, Wallet>` is an association list `List (String × Wallet)`
  with unique keys; the operations mirror `HashMap::get`, `contains_key`,
  `insert` (replace) and `remove`.
* Randomness (`thread_rng`) is an explicit input: the freshly drawn
  salt/iv bytes and the freshly generated key pair are parameters.
* External cryptographic primitives that live in third-party crates
  (`scrypt`, the AES-256 block function of the `aes` crate, and the
  `base64` codec) are fields of a `CipherPrims` parameter structure; the
  CBC chaining, PKCS#7 padding, length validation and storage layout —
  the code that actually lives in `src/types/wallet.rs` — are modelled
  concretely.
* Fallible operations return `Except`; an `Except.error` return models a
  Rust `Err` before any state was written, so the caller's persisted
  state is unchanged.
-/

set_option autoImplicit false

namespace RskCli

/-! ## Data model: `Wallet` and `WalletData` (src/types/wallet.rs) -/

/-- Mirror of `struct Wallet` (src/types/wallet.rs, lines 20-30).
`address` is the 160-bit account id as a natural number, `balance` the
`U256` balance; the crypto fields (`encrypted_private_key`, `salt`, `iv`)
hold the base64 text exactly as in the Rust struct. -/
structure Wallet where
  address : Nat
  balance : Nat
  network : String
  name : String
  encrypted_private_key : String
  salt : String
  iv : String
  created_at : String
deriving Repr, DecidableEq

/-- Mirror of `struct WalletData` (src/types/wallet.rs, lines 32-38).
The `contacts` and `api_key` fields are peripheral (out of scope per the
spec) and are not modelled. The `HashMap<String, Wallet>` is modelled as
an association list with unique keys. -/
structure WalletData where
  current_wallet : String
  wallets : List (String × Wallet)
deriving Repr, DecidableEq

/-- Lowercase hex digit, as produced by Rust's `{:x}` formatting. -/
def hexChar (n : Nat) : Char :=
  if n < 10 then Char.ofNat (48 + n) else Char.ofNat (87 + n)

/-- Mirror of `format!("0x{:x}", wallet.address)`: ethers' `H160`
`LowerHex` prints all 20 bytes as 40 zero-padded lowercase hex digits. -/
def fmtAddress (a : Nat) : String :=
  "0x" ++ String.mk ((List.range 40).map (fun i => hexChar (a / 16 ^ (39 - i) % 16)))

/-! ### Association-list operations mirroring `HashMap` -/

/-- `HashMap::get`. -/
def lookupW : List (String × Wallet) → String → Option Wallet
  | [], _ => none
  | p :: l, k => if p.1 == k then some p.2 else lookupW l k

/-- `HashMap::contains_key`. -/
def hasKey : List (String × Wallet) → String → Bool
  | [], _ => false
  | p :: l, k => p.1 == k || hasKey l k

/-- `HashMap::insert` (replaces the value when the key is present). -/
def insertW : List (String × Wallet) → String → Wallet → List (String × Wallet)
  | [], k, w => [(k, w)]
  | p :: l, k, w => if p.1 == k then (k, w) :: l else p :: insertW l k w

/-- `HashMap::remove` (on a map with unique keys). -/
def eraseW : List (String × Wallet) → String → List (String × Wallet)
  | [], _ => []
  | p :: l, k => if p.1 == k then eraseW l k else p :: eraseW l k

@[simp] theorem hasKey_nil (k : String) : hasKey [] k = false := rfl

@[simp] theorem hasKey_cons (p : String × Wallet) (l : List (String × Wallet)) (k : String) :
    hasKey (p :: l) k = (p.1 == k || hasKey l k) := rfl

theorem hasKey_insertW_self (l : List (String × Wallet)) (k : String) (w : Wallet) :
    hasKey (insertW l k w) k = true := by
  induction l with
  | nil => simp [insertW, hasKey]
  | cons p l ih =>
    by_cases h : p.1 == k
    · simp [insertW, h, hasKey]
    · simp only [insertW, h, if_false, Bool.false_eq_true, hasKey_cons, ih, Bool.or_true]

theorem hasKey_eraseW_self (l : List (String × Wallet)) (k : String) :
    hasKey (eraseW l k) k = false := by
  induction l with
  | nil => simp [eraseW]
  | cons p l ih =>
    by_cases h : p.1 == k
    · simpa [eraseW, h] using ih
    · simp [eraseW, h, hasKey, ih]

theorem hasKey_eraseW_ne (l : List (String × Wallet)) (k k' : String) (h : k' ≠ k) :
    hasKey (eraseW l k) k' = hasKey l k' := by
  induction l with
  | nil => simp [eraseW]
  | cons p l ih =>
    by_cases hp : p.1 == k
    · have : (p.1 == k') = false := by
        have hpk : p.1 = k := by simpa using hp
        simp [hpk, (by simpa using h.symm : ¬ k = k')]
      simp [eraseW, hp, hasKey, this, ih]
    · simp [eraseW, hp, hasKey, ih]

theorem hasKey_map_keyfix (l : List (String × Wallet)) (g : String × Wallet → Wallet)
    (k : String) :
    hasKey (l.map (fun p => (p.1, g p))) k = hasKey l k := by
  induction l with
  | nil => simp
  | cons p l ih => simp [hasKey, ih]

theorem hasKey_rename_map (l : List (String × Wallet)) (address n k : String) :
    hasKey (l.map (fun p => if p.1 == address then (p.1, { p.2 with name := n }) else p)) k
      = hasKey l k := by
  induction l with
  | nil => rfl
  | cons p l ih =>
    by_cases hp : p.1 == address
    · rw [List.map_cons, if_pos hp, hasKey_cons, hasKey_cons, ih]
    · rw [List.map_cons, if_neg hp, hasKey_cons, hasKey_cons, ih]

/-! ## Registry mutations (`impl WalletData`, src/types/wallet.rs 148-211) -/

/-- Error kinds of the `WalletData` mutations (the Rust code returns
`anyhow!` messages; only the kind matters here). -/
inductive RegistryError
  | duplicateAddress
  | notFound
deriving Repr, DecidableEq

/-- Mirror of `WalletData::new` (lines 150-157). -/
def walletDataNew : WalletData := { current_wallet := "", wallets := [] }

/-- Mirror of `WalletData::add_wallet` (lines 159-167): reject an existing
address key, otherwise insert and make the new entry current. -/
def add_wallet (wd : WalletData) (w : Wallet) : Except RegistryError WalletData :=
  let address := fmtAddress w.address
  if hasKey wd.wallets address then .error .duplicateAddress
  else .ok { current_wallet := address, wallets := insertW wd.wallets address w }

/-- Mirror of `WalletData::get_current_wallet` (lines 169-171):
`self.wallets.get(&self.current_wallet)`. -/
def get_current_wallet (wd : WalletData) : Option Wallet :=
  lookupW wd.wallets wd.current_wallet

/-- Mirror of `WalletData::switch_wallet` (lines 173-179). -/
def switch_wallet (wd : WalletData) (address : String) : Except RegistryError WalletData :=
  if hasKey wd.wallets address then .ok { wd with current_wallet := address }
  else .error .notFound

/-- Mirror of `WalletData::get_wallet_by_name` (lines 181-183):
`self.wallets.values().find(|w| w.name == name)`. -/
def get_wallet_by_name (wd : WalletData) (name : String) : Option Wallet :=
  (wd.wallets.map Prod.snd).find? (fun w => w.name == name)

/-- Mirror of `WalletData::remove_wallet` (lines 185-194): missing key is
an error; removing the current wallet clears the pointer first. -/
def remove_wallet (wd : WalletData) (address : String) : Except RegistryError WalletData :=
  if hasKey wd.wallets address then
    .ok { current_wallet := if wd.current_wallet == address then "" else wd.current_wallet,
          wallets := eraseW wd.wallets address }
  else .error .notFound

/-- Mirror of `WalletData::rename_wallet` (lines 196-207): looks the
wallet's formatted address up and sets the `name` field of the stored
value in place (no uniqueness check at this layer). -/
def rename_wallet (wd : WalletData) (w : Wallet) (new_name : String) :
    Except RegistryError WalletData :=
  let address := fmtAddress w.address
  if hasKey wd.wallets address then
    .ok { wd with wallets :=
            wd.wallets.map (fun p => if p.1 == address then (p.1, { p.2 with name := new_name }) else p) }
  else .error .notFound

/-! ## Mutation sequences and Invariant I1 -/

/-- One registry mutation, as named in Invariant I1 of the spec. -/
inductive RegistryOp
  | add (w : Wallet)
  | switch (address : String)
  | remove (address : String)
  | rename (w : Wallet) (new_name : String)

/-- Apply one mutation; an `error` leaves the registry untouched (every
`WalletData` method returns `Err` before mutating anything). -/
def apply_op (wd : WalletData) (op : RegistryOp) : Except RegistryError WalletData :=
  match op with
  | .add w => add_wallet wd w
  | .switch a => switch_wallet wd a
  | .remove a => remove_wallet wd a
  | .rename w n => rename_wallet wd w n

/-- Run a sequence of mutations; failed mutations are skipped (state
unchanged), successful ones take effect. -/
def run_ops (wd : WalletData) (ops : List RegistryOp) : WalletData :=
  ops.foldl (fun st op => match apply_op st op with | .ok st' => st' | .error _ => st) wd

/-- Invariant I1 of the spec: a non-empty `current_wallet` references an
existing key of the `wallets` map. -/
def invariantI1 (wd : WalletData) : Prop :=
  wd.current_wallet ≠ "" → hasKey wd.wallets wd.current_wallet = true

theorem apply_op_preserves_I1 (wd : WalletData) (op : RegistryOp) (h : invariantI1 wd) :
    invariantI1 (match apply_op wd op with | .ok st' => st' | .error _ => wd) := by
  cases op with
  | add w =>
    simp only [apply_op, add_wallet]
    by_cases hk : hasKey wd.wallets (fmtAddress w.address)
    · simpa [hk] using h
    · intro _
      simpa [hk] using hasKey_insertW_self wd.wallets (fmtAddress w.address) w
  | switch a =>
    simp only [apply_op, switch_wallet]
    by_cases hk : hasKey wd.wallets a
    · intro _; simp [hk]
    · simpa [hk] using h
  | remove a =>
    simp only [apply_op, remove_wallet]
    by_cases hk : hasKey wd.wallets a
    · by_cases hc : wd.current_wallet == a
      · simp [hk, hc, invariantI1]
      · intro hne
        have hcur : wd.current_wallet ≠ a := by simpa using hc
        simp only [hk, if_true, hc, if_false]
        simp only [hk, ite_true] at hne ⊢
        have := h (by simpa [hc] using hne)
        simpa [hc, hasKey_eraseW_ne wd.wallets a wd.current_wallet hcur] using this
    · simpa [hk] using h
  | rename w n =>
    simp only [apply_op, rename_wallet]
    by_cases hk : hasKey wd.wallets (fmtAddress w.address)
    · simp only [hk, if_true]
      intro hne
      show hasKey (wd.wallets.map fun p =>
          if p.1 == fmtAddress w.address then (p.1, { p.2 with name := n }) else p)
          wd.current_wallet = true
      rw [hasKey_rename_map]
      exact h hne
    · simpa [hk] using h

/-- **C3.** Invariant I1 holds after every sequence of registry mutations
(`add_wallet`, `switch_wallet`, `remove_wallet`, `rename_wallet`) starting
from the empty `WalletData`: whenever `current_wallet` is non-empty it is
a key of the `wallets` map, so the current-account pointer never dangles.
Since every prefix of a sequence is itself a sequence, the invariant holds
after every successful mutation along the way. -/
theorem registry_current_wallet_invariant (ops : List RegistryOp) :
    invariantI1 (run_ops walletDataNew ops) := by
  have aux : ∀ (ops : List RegistryOp) (wd : WalletData), invariantI1 wd →
      invariantI1 (run_ops wd ops) := by
    intro ops
    induction ops with
    | nil => intro wd h; simpa [run_ops] using h
    | cons op ops ih =>
      intro wd h
      have hstep := apply_op_preserves_I1 wd op h
      have : run_ops wd (op :: ops)
          = run_ops (match apply_op wd op with | .ok st' => st' | .error _ => wd) ops := by
        simp [run_ops, List.foldl_cons]
      rw [this]
      exact ih _ hstep
  exact aux ops walletDataNew (by intro h; simp [walletDataNew] at h)

/-! ## Characterization of `get_current_wallet` (claim C10) -/

theorem lookupW_isSome (l : List (String × Wallet)) (k : String) :
    (lookupW l k).isSome = hasKey l k := by
  induction l with
  | nil => rfl
  | cons p l ih =>
    by_cases hp : p.1 == k
    · simp [lookupW, hasKey, hp]
    · simp [lookupW, hasKey, hp, ih]

theorem lookupW_some_mem (l : List (String × Wallet)) (k : String) (w : Wallet)
    (h : lookupW l k = some w) : (k, w) ∈ l := by
  induction l with
  | nil => simp [lookupW] at h
  | cons p l ih =>
    by_cases hp : p.1 == k
    · have hk : p.1 = k := by simpa using hp
      have hw : p.2 = w := by simpa [lookupW, hp] using h
      exact List.mem_cons.2 (Or.inl (by rw [← hk, ← hw]))
    · exact List.mem_cons.2 (Or.inr (ih (by simpa [lookupW, hp] using h)))

/-- **C10.** `get_current_wallet` returns `some` exactly when
`current_wallet` is a key of the `wallets` map, and the record it returns
is the entry stored under that key; when `current_wallet` is a dangling
pointer (absent from the map — e.g. a hand-edited store file), or the
empty string (which is never an address key), the result is `none`: the
dangling pointer is silently treated as "no account selected" rather than
rejected. -/
theorem get_current_wallet_lookup_spec (wd : WalletData) :
    ((get_current_wallet wd).isSome = true ↔ hasKey wd.wallets wd.current_wallet = true)
  ∧ (∀ w, get_current_wallet wd = some w → (wd.current_wallet, w) ∈ wd.wallets)
  ∧ (hasKey wd.wallets wd.current_wallet = false → get_current_wallet wd = none)
  ∧ (wd.current_wallet = "" → hasKey wd.wallets "" = false → get_current_wallet wd = none) := by
  refine ⟨?_, ?_, ?_, ?_⟩
  · rw [get_current_wallet, lookupW_isSome]
  · intro w h
    exact lookupW_some_mem wd.wallets wd.current_wallet w h
  · intro h
    have hs := lookupW_isSome wd.wallets wd.current_wallet
    rw [h] at hs
    rw [get_current_wallet]
    cases hl : lookupW wd.wallets wd.current_wallet with
    | none => rfl
    | some w => rw [hl] at hs; simp at hs
  · intro hcur h
    have hs := lookupW_isSome wd.wallets wd.current_wallet
    rw [get_current_wallet]
    cases hl : lookupW wd.wallets wd.current_wallet with
    | none => rfl
    | some w => rw [hl, hcur, h] at hs; simp at hs

/-- Helper wallet value for concrete stores in witnesses and
counterexamples: only `address` and `name` matter to the registry. -/
def mkWallet (address : Nat) (name : String) : Wallet :=
  { address := address, balance := 0, network := "", name := name,
    encrypted_private_key := "", salt := "", iv := "", created_at := "" }

/-- Witness for C10: a store whose `current_wallet` points at an address
absent from the map (a hand-edited dangling pointer) yields `none`. -/
theorem get_current_wallet_lookup_spec_witness :
    get_current_wallet { current_wallet := "0xdead",
                         wallets := [(fmtAddress 1, mkWallet 1 "A")] } = none := by
  exact (get_current_wallet_lookup_spec _).2.2.1 (by decide)

/-! ## Command layer (`impl WalletCommand`, src/commands/wallet.rs)

Each command loads the store file, mutates in memory and writes the whole
file back on success; an `Except.error` return happens before any write,
so the persisted store is unchanged. The randomly generated key pair of
`create` and the parse result of `import` are explicit parameters. -/

/-- Error kinds surfaced by the wallet commands (`anyhow!` messages). -/
inductive CmdError
  | duplicateName
  | invalidKeyFormat
  | notFound
  | invalidName
  | renameFailed
  | cannotRemoveActive
  | invalidWalletName
  | invalidFilename
deriving Repr, DecidableEq

/-- Byte-level `str::ends_with`, on the character sequence. -/
def ends_with (s suffix : String) : Bool :=
  suffix.data.isSuffixOf s.data

/-- Model of the `&PathBuf` argument of the backup command: its textual
form and the result of `Path::file_name()` (final component, `none` for
paths like `..`). -/
structure PathArg where
  display : String
  file_name : Option String
deriving Repr, DecidableEq

namespace WalletCommand

/-- Mirror of `WalletCommand::create_wallet` (src/commands/wallet.rs,
lines 48-71): reject an existing display name, otherwise build the record
from the freshly generated key pair (`fresh`, with `name` set as
`Wallet::new` does), `add_wallet` it — ignoring its result, as the
`let _ =` in the source does — and persist. -/
def create_wallet (wd : WalletData) (name : String) (fresh : Wallet) :
    Except CmdError WalletData :=
  if (get_wallet_by_name wd name).isSome then .error .duplicateName
  else .ok (match add_wallet wd { fresh with name := name } with
            | .ok wd' => wd'
            | .error _ => wd)

/-- Mirror of `WalletCommand::import_wallet` (lines 73-88): `parsed` is
the result of `LocalWallet::from_str` on the caller's key (`none` models
a parse failure). Note: unlike `create_wallet`, no duplicate-name check
is performed. -/
def import_wallet (wd : WalletData) (parsed : Option Wallet) (name : String) :
    Except CmdError WalletData :=
  match parsed with
  | none => .error .invalidKeyFormat
  | some fresh =>
      .ok (match add_wallet wd { fresh with name := name } with
           | .ok wd' => wd'
           | .error _ => wd)

/-- Mirror of `WalletCommand::rename_wallet` (lines 133-162): missing old
name, empty new name and duplicate new name are rejected, then the stored
record's `name` field is updated in place. -/
def rename_wallet (wd : WalletData) (old_name new_name : String) :
    Except CmdError WalletData :=
  match get_wallet_by_name wd old_name with
  | none => .error .notFound
  | some w =>
    if new_name == "" then .error .invalidName
    else if (get_wallet_by_name wd new_name).isSome then .error .duplicateName
    else
      let address := fmtAddress w.address
      if hasKey wd.wallets address then
        .ok { wd with wallets :=
                wd.wallets.map (fun p =>
                  if p.1 == address then (p.1, { p.2 with name := new_name }) else p) }
      else .error .renameFailed

/-- Mirror of `WalletCommand::backup_wallet` (lines 164-195): rejects a
`name` ending in `.json`, resolves the wallet by name, takes the *file
name component* of the destination path and writes the serialized record
to `./<file name>`. On success the result is the written path together
with the record written (the full `Wallet` struct, whose only key
material is the `encrypted_private_key` field). -/
def backup_wallet (wd : WalletData) (name : String) (path : PathArg) :
    Except CmdError (String × Wallet) :=
  if ends_with name ".json" then .error .invalidWalletName
  else match get_wallet_by_name wd name with
    | none => .error .notFound
    | some w =>
      match path.file_name with
      | none => .error .invalidFilename
      | some filename => .ok ("./" ++ filename, w)

/-- Mirror of `WalletCommand::delete_wallet` (lines 197-215): resolves
the name, refuses to delete the currently selected wallet, otherwise
calls `WalletData::remove_wallet` ignoring its result (the `let _ =` in
the source) and persists. -/
def delete_wallet (wd : WalletData) (name : String) : Except CmdError WalletData :=
  match get_wallet_by_name wd name with
  | none => .error .notFound
  | some w =>
    let address := fmtAddress w.address
    if wd.current_wallet == address then .error .cannotRemoveActive
    else .ok (match remove_wallet wd address with
              | .ok wd' => wd'
              | .error _ => wd)

end WalletCommand

/-! ## Claims about the command layer -/

/-- `Except.getD`-style helper: the `ok` payload, or the default on error
(used to chain concrete command runs in counterexamples/witnesses). -/
def okOr {ε α : Type} (x : Except ε α) (d : α) : α :=
  match x with
  | .ok a => a
  | .error _ => d

theorem delete_wallet_ok_of_not_active (wd : WalletData) (name : String) (w : Wallet)
    (hfind : get_wallet_by_name wd name = some w)
    (hne : wd.current_wallet ≠ fmtAddress w.address) :
    ∃ wd', WalletCommand.delete_wallet wd name = .ok wd'
      ∧ wd'.current_wallet = wd.current_wallet
      ∧ hasKey wd'.wallets (fmtAddress w.address) = false := by
  have hbe : (wd.current_wallet == fmtAddress w.address) = false := by
    simpa using hne
  by_cases hk : hasKey wd.wallets (fmtAddress w.address)
  · refine ⟨{ current_wallet := wd.current_wallet,
              wallets := eraseW wd.wallets (fmtAddress w.address) }, ?_, rfl, ?_⟩
    · simp [WalletCommand.delete_wallet, hfind, hbe, remove_wallet, hk]
    · exact hasKey_eraseW_self wd.wallets (fmtAddress w.address)
  · refine ⟨wd, ?_, rfl, by simpa using hk⟩
    simp [WalletCommand.delete_wallet, hfind, hbe, remove_wallet, hk]

/-- **C4.** Deleting the account referenced by `current_wallet` fails with
the cannot-remove-active error; deleting any other resolvable account
succeeds, removes it, and leaves the current-account pointer untouched
(never silently cleared or reassigned); and after switching to another
stored account, deleting the former current account succeeds. -/
theorem delete_wallet_active_protection (wd : WalletData) (name : String) (w : Wallet)
    (hfind : get_wallet_by_name wd name = some w) :
    (wd.current_wallet = fmtAddress w.address →
        WalletCommand.delete_wallet wd name = .error .cannotRemoveActive)
  ∧ (wd.current_wallet ≠ fmtAddress w.address →
      ∃ wd', WalletCommand.delete_wallet wd name = .ok wd'
        ∧ wd'.current_wallet = wd.current_wallet
        ∧ hasKey wd'.wallets (fmtAddress w.address) = false)
  ∧ (∀ other, hasKey wd.wallets other = true → other ≠ fmtAddress w.address →
      ∃ wd₁ wd₂, switch_wallet wd other = .ok wd₁
        ∧ WalletCommand.delete_wallet wd₁ name = .ok wd₂
        ∧ wd₂.current_wallet = other) := by
  refine ⟨?_, ?_, ?_⟩
  · intro hcur
    have hbe : (wd.current_wallet == fmtAddress w.address) = true := by simpa using hcur
    simp [WalletCommand.delete_wallet, hfind, hbe]
  · intro hne
    exact delete_wallet_ok_of_not_active wd name w hfind hne
  · intro other hother hne
    refine ⟨{ wd with current_wallet := other }, ?_⟩
    have hswitch : switch_wallet wd other = .ok { wd with current_wallet := other } := by
      simp [switch_wallet, hother]
    have hfind₁ : get_wallet_by_name { wd with current_wallet := other } name = some w := hfind
    obtain ⟨wd₂, hdel, hcur, _⟩ :=
      delete_wallet_ok_of_not_active { wd with current_wallet := other } name w hfind₁ hne
    exact ⟨wd₂, hswitch, hdel, hcur⟩

/-- Concrete two-account store: "A" (address 1) is current, "B"
(address 2) is not. -/
def storeAB : WalletData :=
  { current_wallet := fmtAddress 1,
    wallets := [(fmtAddress 1, mkWallet 1 "A"), (fmtAddress 2, mkWallet 2 "B")] }

/-- Witness for C4 on `storeAB`: deleting the active "A" is refused;
after switching to address 2, deleting "A" succeeds with the pointer at
address 2. -/
theorem delete_wallet_active_protection_witness :
    WalletCommand.delete_wallet storeAB "A" = .error .cannotRemoveActive
  ∧ ∃ wd₁ wd₂, switch_wallet storeAB (fmtAddress 2) = .ok wd₁
      ∧ WalletCommand.delete_wallet wd₁ "A" = .ok wd₂
      ∧ wd₂.current_wallet = fmtAddress 2 := by
  refine ⟨(delete_wallet_active_protection storeAB "A" (mkWallet 1 "A") (by decide)).1 (by decide),
          (delete_wallet_active_protection storeAB "A" (mkWallet 1 "A") (by decide)).2.2
            (fmtAddress 2) (by decide) (by decide)⟩

/-- **C5 counterexample.** The claim says every inserting/renaming
operation rejects an existing display name, so no reachable store holds
two records with one name. But `import_wallet` performs no duplicate-name
check: creating "A" and then importing a second key under the name "A"
both succeed, and the resulting store holds two records named "A". -/
theorem duplicate_name_reachable_via_import :
    (WalletCommand.create_wallet walletDataNew "A" (mkWallet 1 "")).isOk = true
  ∧ (WalletCommand.import_wallet
      (okOr (WalletCommand.create_wallet walletDataNew "A" (mkWallet 1 "")) walletDataNew)
      (some (mkWallet 2 "")) "A").isOk = true
  ∧ ((okOr (WalletCommand.import_wallet
        (okOr (WalletCommand.create_wallet walletDataNew "A" (mkWallet 1 "")) walletDataNew)
        (some (mkWallet 2 "")) "A") walletDataNew).wallets.map
          (fun p => p.2.name)).count "A" = 2 := by
  decide

/-- **C5 (amended).** Display-name uniqueness is enforced by `create`
(duplicate name rejected) and by `rename` (duplicate new name rejected),
but *not* by `import`, which never checks the name: importing a parseable
key always succeeds regardless of an existing record with the same
display name. -/
theorem name_uniqueness_create_rename_only :
    (∀ (wd : WalletData) (name : String) (fresh : Wallet),
        (get_wallet_by_name wd name).isSome = true →
        WalletCommand.create_wallet wd name fresh = .error .duplicateName)
  ∧ (∀ (wd : WalletData) (old_name new_name : String) (w : Wallet),
        get_wallet_by_name wd old_name = some w →
        new_name ≠ "" →
        (get_wallet_by_name wd new_name).isSome = true →
        WalletCommand.rename_wallet wd old_name new_name = .error .duplicateName)
  ∧ (∀ (wd : WalletData) (fresh : Wallet) (name : String),
        ∃ wd', WalletCommand.import_wallet wd (some fresh) name = .ok wd') := by
  refine ⟨?_, ?_, ?_⟩
  · intro wd name fresh h
    simp [WalletCommand.create_wallet, h]
  · intro wd old_name new_name w hfind hne hdup
    have hbe : (new_name == "") = false := by simpa using hne
    simp [WalletCommand.rename_wallet, hfind, hbe, hdup]
  · intro wd fresh name
    exact ⟨_, rfl⟩

/-- Witness for the amended C5 on concrete stores. -/
theorem name_uniqueness_create_rename_only_witness :
    WalletCommand.create_wallet storeAB "A" (mkWallet 3 "") = .error .duplicateName
  ∧ WalletCommand.rename_wallet storeAB "A" "B" = .error .duplicateName
  ∧ ∃ wd', WalletCommand.import_wallet storeAB (some (mkWallet 3 "")) "A" = .ok wd' := by
  refine ⟨name_uniqueness_create_rename_only.1 storeAB "A" (mkWallet 3 "") (by decide),
          name_uniqueness_create_rename_only.2.1 storeAB "A" "B" (mkWallet 1 "A")
            (by decide) (by decide) (by decide),
          name_uniqueness_create_rename_only.2.2 storeAB (mkWallet 3 "") "A"⟩

/-- The create command together with its persistence step: on success the
new store is written, on error nothing is written and the persisted store
is exactly the old one. -/
def create_and_save (file : WalletData) (name : String) (fresh : Wallet) :
    WalletData × Option CmdError :=
  match WalletCommand.create_wallet file name fresh with
  | .ok wd' => (wd', none)
  | .error e => (file, some e)

/-- **C6.** Creating a wallet with a display name that already exists
fails with the duplicate-name error, and the persisted store after the
failed call is exactly the store before it (the check happens before any
record is built or written). -/
theorem create_wallet_duplicate_name_unchanged (wd : WalletData) (name : String)
    (fresh : Wallet) (h : (get_wallet_by_name wd name).isSome = true) :
    create_and_save wd name fresh = (wd, some .duplicateName) := by
  simp [create_and_save, WalletCommand.create_wallet, h]

/-- Witness for C6: create "A" from the empty store, then create "A"
again; the second call fails and leaves the store of the first call. -/
theorem create_wallet_duplicate_name_unchanged_witness :
    create_and_save (okOr (WalletCommand.create_wallet walletDataNew "A" (mkWallet 1 "")) walletDataNew)
        "A" (mkWallet 2 "")
      = (okOr (WalletCommand.create_wallet walletDataNew "A" (mkWallet 1 "")) walletDataNew,
         some .duplicateName) := by
  exact create_wallet_duplicate_name_unchanged _ "A" (mkWallet 2 "") (by decide)

/-- Concrete one-account store with display name "A". -/
def storeBak : WalletData :=
  { current_wallet := "", wallets := [(fmtAddress 1, mkWallet 1 "A")] }

/-- Concrete store whose single account has the path-looking name
"sub/dir". -/
def storeSlash : WalletData :=
  { current_wallet := "", wallets := [(fmtAddress 1, mkWallet 1 "sub/dir")] }

/-- **C9 counterexample.** The claim says backup writes to the
caller-chosen destination path and rejects a name that looks like a path.
Both parts fail on the code: (1) for destination `/tmp/backups/wallet.bak`
the record is written to `./wallet.bak` — only the file-name component is
kept and the directory is ignored; (2) the name check only rejects names
ending in `.json`, so the path-looking name `sub/dir` is accepted. -/
theorem backup_wallet_destination_cex :
    (WalletCommand.backup_wallet storeBak "A" ⟨"/tmp/backups/wallet.bak", some "wallet.bak"⟩
        = .ok ("./wallet.bak", mkWallet 1 "A")
      ∧ "./wallet.bak" ≠ "/tmp/backups/wallet.bak")
  ∧ WalletCommand.backup_wallet storeSlash "sub/dir" ⟨"out.bak", some "out.bak"⟩
      = .ok ("./out.bak", mkWallet 1 "sub/dir") := by
  refine ⟨⟨rfl, by decide⟩, rfl⟩

/-- **C9 (amended).** `backup` rejects a name ending in `.json`, fails
with not-found when the name does not resolve, and otherwise writes the
full stored record — whose only key material is the encrypted
`encrypted_private_key` field, never a plaintext key — to
`./<file-name component of the destination>` in the current working
directory (the destination's directory part is ignored). -/
theorem backup_wallet_behavior (wd : WalletData) (name : String) (path : PathArg) :
    (ends_with name ".json" = true →
        WalletCommand.backup_wallet wd name path = .error .invalidWalletName)
  ∧ (ends_with name ".json" = false → get_wallet_by_name wd name = none →
        WalletCommand.backup_wallet wd name path = .error .notFound)
  ∧ (∀ w filename, ends_with name ".json" = false →
        get_wallet_by_name wd name = some w → path.file_name = some filename →
        WalletCommand.backup_wallet wd name path = .ok ("./" ++ filename, w)) := by
  refine ⟨?_, ?_, ?_⟩
  · intro h
    simp [WalletCommand.backup_wallet, h]
  · intro h hfind
    simp [WalletCommand.backup_wallet, h, hfind]
  · intro w filename h hfind hfn
    simp [WalletCommand.backup_wallet, h, hfind, hfn]

/-- Witness for the amended C9 on `storeBak`. -/
theorem backup_wallet_behavior_witness :
    WalletCommand.backup_wallet storeBak "nope" ⟨"x", some "x"⟩ = .error .notFound
  ∧ WalletCommand.backup_wallet storeBak "A" ⟨"/tmp/x.bin", some "x.bin"⟩
      = .ok ("./x.bin", mkWallet 1 "A")
  ∧ WalletCommand.backup_wallet storeBak "a.json" ⟨"x", some "x"⟩ = .error .invalidWalletName := by
  refine ⟨(backup_wallet_behavior storeBak "nope" ⟨"x", some "x"⟩).2.1 (by decide) (by decide),
          (backup_wallet_behavior storeBak "A" ⟨"/tmp/x.bin", some "x.bin"⟩).2.2
            (mkWallet 1 "A") "x.bin" (by decide) (by decide) rfl,
          (backup_wallet_behavior storeBak "a.json" ⟨"x", some "x"⟩).1 (by decide)⟩

/-! ## Key encryption (`Wallet::encrypt_private_key` / `Wallet::decrypt_private_key`)

The code in `src/types/wallet.rs` composes external primitives — scrypt
(`Params::recommended()`, fixed at both ends), the AES-256 block function
of the `aes` crate, and the `base64` STANDARD codec — with CBC chaining,
PKCS#7 padding, storage encoding and length validation, which live in
this repository and are modelled concretely below. The external
primitives are the fields of `CipherPrims`; the properties the real
primitives provide (the AES decryption block function inverts the
encryption block function; base64 decoding inverts encoding) appear as
hypotheses of the round-trip theorem. -/

/-- The external cryptographic primitives used by the wallet crypto:
`scrypt password salt` is the 32-byte derived key (the cost parameters
are `Params::recommended()` at both encrypt and decrypt time, hence not
arguments); `encBlock`/`decBlock` are the AES-256 block functions for a
given key; `b64encode`/`b64decode` are the base64 STANDARD codec. -/
structure CipherPrims where
  scrypt : List Nat → List Nat → List Nat
  encBlock : List Nat → List Nat → List Nat
  decBlock : List Nat → List Nat → List Nat
  b64encode : List Nat → String
  b64decode : String → Option (List Nat)

/-- Byte-wise XOR of two equally long byte strings (CBC chaining). -/
def xorBytes (a b : List Nat) : List Nat :=
  List.zipWith (fun x y => x ^^^ y) a b

/-- Lowercase hex encoding of a byte string (`hex::encode`). -/
def hexOfBytes : List Nat → String
  | [] => ""
  | b :: bs => String.mk [hexChar (b / 16), hexChar (b % 16)] ++ hexOfBytes bs

/-- Concatenation of a block sequence back into a flat byte buffer. -/
def concatBytes : List (List Nat) → List Nat
  | [] => []
  | b :: bs => b ++ concatBytes bs

/-- Fuelled splitting of a buffer into 16-byte cipher blocks (the fuel —
the buffer length — only drives the structural recursion). -/
def toBlocksN : Nat → List Nat → List (List Nat)
  | 0, _ => []
  | _ + 1, [] => []
  | fuel + 1, a :: l => (a :: l).take 16 :: toBlocksN fuel ((a :: l).drop 16)

/-- Split a buffer into its 16-byte cipher blocks. -/
def toBlocks (l : List Nat) : List (List Nat) :=
  toBlocksN l.length l

/-- CBC encryption (`cbc::Encryptor`): each plaintext block is XORed
with the previous ciphertext block (initially the IV) and then passed
through the block cipher. -/
def cbc_encrypt (P : CipherPrims) (key : List Nat) : List Nat → List (List Nat) → List (List Nat)
  | _, [] => []
  | prev, b :: bs =>
    let c := P.encBlock key (xorBytes prev b)
    c :: cbc_encrypt P key c bs

/-- CBC decryption (`cbc::Decryptor`): each ciphertext block is passed
through the inverse block cipher and XORed with the previous ciphertext
block (initially the IV). -/
def cbc_decrypt (P : CipherPrims) (key : List Nat) : List Nat → List (List Nat) → List (List Nat)
  | _, [] => []
  | prev, c :: cs => xorBytes prev (P.decBlock key c) :: cbc_decrypt P key c cs

/-- PKCS#7 padding as performed by `encrypt_private_key` (lines 71-76):
`pad_len = 16 - len % 16` bytes, each holding `pad_len` (a full padding
block when the message length is already a multiple of 16). -/
def pkcs7_pad (msg : List Nat) : List Nat :=
  let pad_len := 16 - msg.length % 16
  msg ++ List.replicate pad_len pad_len

/-- PKCS#7 unpadding as performed by `decrypt_padded_mut::<Pkcs7>` on the
decrypted buffer: read the last byte `n`, require `1 ≤ n ≤ 16` and that
the last `n` bytes all equal `n`, and strip them; `none` models the
`UnpadError` (padding validation failure, e.g. wrong derived key) and
also the empty buffer (no final block to inspect). -/
def pkcs7_unpad (buffer : List Nat) : Option (List Nat) :=
  match buffer.getLast? with
  | none => none
  | some n =>
    if n = 0 ∨ 16 < n then none
    else if (buffer.drop (buffer.length - n)).all (fun b => b == n) then
      some (buffer.take (buffer.length - n))
    else none

/-- Mirror of `Wallet::encrypt_private_key` (lines 60-78): the random
salt and IV drawn from `thread_rng` are explicit inputs; the key is
derived by scrypt from the password bytes and salt, the private key is
PKCS#7-padded and CBC-encrypted, and the triple
`(ciphertext, iv, salt)` is returned as in the source. -/
def encrypt_private_key (P : CipherPrims) (private_key password salt iv : List Nat) :
    List Nat × List Nat × List Nat :=
  let key := P.scrypt password salt
  (concatBytes (cbc_encrypt P key iv (toBlocks (pkcs7_pad private_key))), iv, salt)

/-- The record-building part of `Wallet::new` (lines 45-58): encrypt the
private key and store ciphertext, salt and IV base64-encoded
(`created_at` is wall-clock time, out of the model). -/
def wallet_new (P : CipherPrims) (address : Nat) (name : String)
    (private_key password salt iv : List Nat) : Wallet :=
  let r := encrypt_private_key P private_key password salt iv
  { address := address, balance := 0, network := "", name := name,
    encrypted_private_key := P.b64encode r.1,
    salt := P.b64encode r.2.2,
    iv := P.b64encode r.2.1,
    created_at := "" }

/-- The failure cases of `Wallet::decrypt_private_key` (each corresponds
to one `anyhow!` return in lines 80-135). -/
inductive DecryptError
  | saltDecode
  | ivDecode
  | keyDecode
  | saltLen (n : Nat)
  | ivLen (n : Nat)
  | ctLen (n : Nat)
  | unpadFailed
  | ptLen (n : Nat)
deriving Repr, DecidableEq

/-- Mirror of `Wallet::decrypt_private_key` (lines 80-135): base64-decode
salt, IV and ciphertext; validate salt and IV are 16 bytes and the
ciphertext length is a multiple of 16; derive the key with scrypt
(same fixed parameters as encryption); CBC-decrypt and PKCS#7-unpad;
require exactly 32 plaintext bytes; return the key as a 0x-prefixed hex
string. -/
def decrypt_private_key (P : CipherPrims) (w : Wallet) (password : List Nat) :
    Except DecryptError String :=
  match P.b64decode w.salt with
  | none => .error .saltDecode
  | some salt =>
    match P.b64decode w.iv with
    | none => .error .ivDecode
    | some iv =>
      match P.b64decode w.encrypted_private_key with
      | none => .error .keyDecode
      | some encrypted_key =>
        if salt.length ≠ 16 then .error (.saltLen salt.length)
        else if iv.length ≠ 16 then .error (.ivLen iv.length)
        else if encrypted_key.length % 16 ≠ 0 then .error (.ctLen encrypted_key.length)
        else
          match pkcs7_unpad (concatBytes
              (cbc_decrypt P (P.scrypt password salt) iv (toBlocks encrypted_key))) with
          | none => .error .unpadFailed
          | some decrypted =>
            if decrypted.length ≠ 32 then .error (.ptLen decrypted.length)
            else .ok ("0x" ++ hexOfBytes decrypted)

/-! ### Round-trip lemmas for the CBC/PKCS#7 layer -/

theorem length_xorBytes (a b : List Nat) : (xorBytes a b).length = min a.length b.length := by
  simp [xorBytes]

theorem xorBytes_cancel (a b : List Nat) (h : a.length = b.length) :
    xorBytes a (xorBytes a b) = b := by
  induction a generalizing b with
  | nil => cases b with
    | nil => rfl
    | cons y b => simp at h
  | cons x a ih =>
    cases b with
    | nil => simp at h
    | cons y b =>
      have hab : a.length = b.length := by simpa using h
      simp only [xorBytes, List.zipWith_cons_cons] at *
      rw [Nat.xor_cancel_left]
      exact congrArg _ (ih b hab)

theorem cbc_roundtrip (P : CipherPrims) (key : List Nat)
    (hED : ∀ b, b.length = 16 → P.decBlock key (P.encBlock key b) = b)
    (hEL : ∀ b, b.length = 16 → (P.encBlock key b).length = 16) :
    ∀ (bs : List (List Nat)) (prev : List Nat), prev.length = 16 →
      (∀ b ∈ bs, b.length = 16) →
      cbc_decrypt P key prev (cbc_encrypt P key prev bs) = bs := by
  intro bs
  induction bs with
  | nil => intro prev _ _; rfl
  | cons b bs ih =>
    intro prev hprev hlen
    have hb : b.length = 16 := hlen b (List.mem_cons_self b bs)
    have hx : (xorBytes prev b).length = 16 := by
      simp [length_xorBytes, hprev, hb]
    simp only [cbc_encrypt, cbc_decrypt]
    rw [hED _ hx, xorBytes_cancel prev b (by rw [hprev, hb])]
    exact congrArg _ (ih (P.encBlock key (xorBytes prev b)) (hEL _ hx)
      (fun c hc => hlen c (List.mem_cons_of_mem b hc)))

theorem cbc_encrypt_blocklen (P : CipherPrims) (key : List Nat)
    (hEL : ∀ b, b.length = 16 → (P.encBlock key b).length = 16) :
    ∀ (bs : List (List Nat)) (prev : List Nat), prev.length = 16 →
      (∀ b ∈ bs, b.length = 16) →
      ∀ c ∈ cbc_encrypt P key prev bs, c.length = 16 := by
  intro bs
  induction bs with
  | nil => intro prev _ _ c hc; simp [cbc_encrypt] at hc
  | cons b bs ih =>
    intro prev hprev hlen c hc
    have hb : b.length = 16 := hlen b (List.mem_cons_self b bs)
    have hx : (xorBytes prev b).length = 16 := by
      simp [length_xorBytes, hprev, hb]
    simp only [cbc_encrypt, List.mem_cons] at hc
    rcases hc with hc | hc
    · rw [hc]; exact hEL _ hx
    · exact ih (P.encBlock key (xorBytes prev b)) (hEL _ hx)
        (fun d hd => hlen d (List.mem_cons_of_mem b hd)) c hc

theorem concatBytes_length16 (bs : List (List Nat)) (h : ∀ b ∈ bs, b.length = 16) :
    (concatBytes bs).length = 16 * bs.length := by
  induction bs with
  | nil => rfl
  | cons b bs ih =>
    have hb : b.length = 16 := h b (List.mem_cons_self b bs)
    have := ih (fun c hc => h c (List.mem_cons_of_mem b hc))
    simp [concatBytes, hb, this, Nat.mul_succ, Nat.add_comm]

theorem toBlocksN_concat (bs : List (List Nat)) :
    ∀ fuel, (∀ b ∈ bs, b.length = 16) → (concatBytes bs).length ≤ fuel →
      toBlocksN fuel (concatBytes bs) = bs := by
  induction bs with
  | nil => intro fuel _ _; cases fuel <;> rfl
  | cons b bs ih =>
    intro fuel hlen hfuel
    have hb : b.length = 16 := hlen b (List.mem_cons_self b bs)
    have hclen : (concatBytes (b :: bs)).length = 16 + (concatBytes bs).length := by
      simp [concatBytes, hb]
    cases fuel with
    | zero => omega
    | succ f =>
      cases b with
      | nil => simp at hb
      | cons x b' =>
        show ((x :: b') ++ concatBytes bs).take 16 :: toBlocksN f (((x :: b') ++ concatBytes bs).drop 16)
            = (x :: b') :: bs
        rw [List.take_left' hb, List.drop_left' hb]
        exact congrArg _ (ih f (fun c hc => hlen c (List.mem_cons_of_mem _ hc)) (by omega))

theorem toBlocks_concat (bs : List (List Nat)) (h : ∀ b ∈ bs, b.length = 16) :
    toBlocks (concatBytes bs) = bs :=
  toBlocksN_concat bs (concatBytes bs).length h (Nat.le_refl _)

theorem concat_toBlocksN : ∀ (fuel : Nat) (l : List Nat), l.length ≤ fuel →
    concatBytes (toBlocksN fuel l) = l := by
  intro fuel
  induction fuel with
  | zero =>
    intro l hl
    cases l with
    | nil => rfl
    | cons a l => simp at hl
  | succ f ih =>
    intro l hl
    cases l with
    | nil => rfl
    | cons a l' =>
      have hl' : l'.length + 1 ≤ f + 1 := by simpa using hl
      show (a :: l').take 16 ++ concatBytes (toBlocksN f ((a :: l').drop 16)) = a :: l'
      rw [ih ((a :: l').drop 16) (by simp; omega)]
      exact List.take_append_drop 16 (a :: l')

theorem concat_toBlocks (l : List Nat) : concatBytes (toBlocks l) = l :=
  concat_toBlocksN l.length l (Nat.le_refl _)

theorem toBlocksN_length16 : ∀ (fuel : Nat) (l : List Nat), l.length ≤ fuel →
    l.length % 16 = 0 → ∀ b ∈ toBlocksN fuel l, b.length = 16 := by
  intro fuel
  induction fuel with
  | zero => intro l _ _ b hb; cases l <;> simp [toBlocksN] at hb
  | succ f ih =>
    intro l hl hmod b hb
    cases l with
    | nil => simp [toBlocksN] at hb
    | cons a l' =>
      have hl' : l'.length + 1 ≤ f + 1 := by simpa using hl
      have hmod' : (l'.length + 1) % 16 = 0 := by simpa using hmod
      have hlen16 : 16 ≤ l'.length + 1 := by omega
      simp only [toBlocksN, List.mem_cons] at hb
      rcases hb with hb | hb
      · rw [hb, List.length_take]
        simp only [List.length_cons]
        omega
      · exact ih ((a :: l').drop 16) (by simp; omega) (by simp; omega) b hb

/-! ### PKCS#7 unpadding of a padded 32-byte key -/

theorem pkcs7_pad_32 (K : List Nat) (h : K.length = 32) :
    pkcs7_pad K = K ++ List.replicate 16 16 := by
  simp [pkcs7_pad, h]

theorem getLast?_pad (K : List Nat) :
    (K ++ List.replicate 16 16).getLast? = some 16 := by
  rw [show List.replicate 16 16 = 16 :: List.replicate 15 16 from rfl,
      List.getLast?_append_cons]
  rfl

theorem pkcs7_unpad_pad32 (K : List Nat) (h : K.length = 32) :
    pkcs7_unpad (K ++ List.replicate 16 16) = some K := by
  have hlen : (K ++ List.replicate 16 16).length = 48 := by simp [h]
  have hdrop : (K ++ List.replicate 16 16).drop 32 = List.replicate 16 16 :=
    List.drop_left' h
  have htake : (K ++ List.replicate 16 16).take 32 = K := List.take_left' h
  rw [pkcs7_unpad, getLast?_pad]
  show (if (16 : Nat) = 0 ∨ 16 < 16 then none
        else if ((K ++ List.replicate 16 16).drop ((K ++ List.replicate 16 16).length - 16)).all
            (fun b => b == 16) = true then
          some ((K ++ List.replicate 16 16).take ((K ++ List.replicate 16 16).length - 16))
        else none) = some K
  rw [if_neg (by omega), hlen]
  show (if ((K ++ List.replicate 16 16).drop 32).all (fun b => b == 16) = true
        then some ((K ++ List.replicate 16 16).take 32) else none) = some K
  rw [hdrop, htake, if_pos (by decide)]

/-- **C1.** Round trip of the keystore crypto: for every password and
32-byte private key, encrypting with `encrypt_private_key` under freshly
drawn 16-byte salt and IV and decrypting the record built from the
returned triple (as `Wallet::new` builds it) with the same password
recovers exactly the key, surfaced as its 0x-prefixed hex encoding. The
hypotheses are the contracts of the external primitives: the AES-256
block functions invert each other on 16-byte blocks, and base64 decoding
inverts base64 encoding on the three stored strings. -/
theorem encrypt_then_decrypt_round_trip (P : CipherPrims)
    (K password salt iv : List Nat) (address : Nat) (name : String)
    (hK : K.length = 32) (hsalt : salt.length = 16) (hiv : iv.length = 16)
    (hED : ∀ key b, b.length = 16 → P.decBlock key (P.encBlock key b) = b)
    (hEL : ∀ key b, b.length = 16 → (P.encBlock key b).length = 16)
    (hdsalt : P.b64decode (P.b64encode salt) = some salt)
    (hdiv : P.b64decode (P.b64encode iv) = some iv)
    (hdkey : P.b64decode (P.b64encode (encrypt_private_key P K password salt iv).1)
              = some (encrypt_private_key P K password salt iv).1) :
    decrypt_private_key P (wallet_new P address name K password salt iv) password
      = .ok ("0x" ++ hexOfBytes K) := by
  have hpad : pkcs7_pad K = K ++ List.replicate 16 16 := pkcs7_pad_32 K hK
  have hpadlen : (pkcs7_pad K).length = 48 := by simp [hpad, hK]
  have hpadmod : (pkcs7_pad K).length % 16 = 0 := by rw [hpadlen]
  have hblocks16 : ∀ b ∈ toBlocks (pkcs7_pad K), b.length = 16 :=
    toBlocksN_length16 (pkcs7_pad K).length (pkcs7_pad K) (Nat.le_refl _) hpadmod
  have hctblocks : ∀ c ∈ cbc_encrypt P (P.scrypt password salt) iv (toBlocks (pkcs7_pad K)),
      c.length = 16 :=
    cbc_encrypt_blocklen P (P.scrypt password salt) (hEL (P.scrypt password salt))
      (toBlocks (pkcs7_pad K)) iv hiv hblocks16
  have hct : (encrypt_private_key P K password salt iv).1
      = concatBytes (cbc_encrypt P (P.scrypt password salt) iv (toBlocks (pkcs7_pad K))) := rfl
  have hctmod : (encrypt_private_key P K password salt iv).1.length % 16 = 0 := by
    rw [hct, concatBytes_length16 _ hctblocks]
    omega
  show decrypt_private_key P
      { address := address, balance := 0, network := "", name := name,
        encrypted_private_key := P.b64encode (encrypt_private_key P K password salt iv).1,
        salt := P.b64encode salt, iv := P.b64encode iv, created_at := "" } password
      = .ok ("0x" ++ hexOfBytes K)
  unfold decrypt_private_key
  simp only [hdsalt, hdiv, hdkey]
  rw [if_neg (by omega), if_neg (by omega), if_neg (by omega)]
  rw [hct, toBlocks_concat _ hctblocks,
      cbc_roundtrip P (P.scrypt password salt) (hED (P.scrypt password salt))
        (hEL (P.scrypt password salt)) (toBlocks (pkcs7_pad K)) iv hiv hblocks16,
      concat_toBlocks (pkcs7_pad K), hpad, pkcs7_unpad_pad32 K hK]
  simp [hK]

/-- Ciphertext of the all-zero 32-byte key under the witness primitives
(identity block function, zero IV): two zero blocks and one full padding
block. -/
def witnessCiphertext : List Nat :=
  List.replicate 32 0 ++ List.replicate 16 16

/-- Concrete primitives for evaluating the crypto model on an input:
identity block functions (which trivially invert each other) and a
two-entry codec table (16-byte inputs are the salt/IV, everything else
is the ciphertext). -/
def witnessPrims : CipherPrims :=
  { scrypt := fun _ _ => List.replicate 32 0
    encBlock := fun _ b => b
    decBlock := fun _ b => b
    b64encode := fun bs => if bs.length = 16 then "s" else "c"
    b64decode := fun s => if s = "s" then some (List.replicate 16 0) else some witnessCiphertext }

/-- Witness for C1: the round-trip theorem evaluated at the all-zero
32-byte key, password `[7]`, zero salt and IV, under `witnessPrims`. -/
theorem encrypt_then_decrypt_round_trip_witness :
    decrypt_private_key witnessPrims
        (wallet_new witnessPrims 1 "w" (List.replicate 32 0) [7]
          (List.replicate 16 0) (List.replicate 16 0)) [7]
      = .ok ("0x" ++ hexOfBytes (List.replicate 32 0)) := by
  exact encrypt_then_decrypt_round_trip witnessPrims (List.replicate 32 0) [7]
    (List.replicate 16 0) (List.replicate 16 0) 1 "w"
    (by decide) (by decide) (by decide)
    (fun _ _ _ => rfl) (fun _ _ h => h)
    (by decide) (by decide) (by decide)

/-- **C2.** `decrypt_private_key` returns an error — never a key — in
every failure case: undecodable salt/IV/ciphertext, decoded salt or IV
not 16 bytes, ciphertext length not a multiple of 16, PKCS#7 padding
validation failure (wrong derived key), or unpadded plaintext not exactly
32 bytes; and on every successful return the surfaced payload is the hex
encoding of exactly 32 plaintext bytes, so no partial or garbage key
reaches the caller. -/
theorem decrypt_private_key_error_conditions (P : CipherPrims) (w : Wallet)
    (password : List Nat) :
    (P.b64decode w.salt = none → decrypt_private_key P w password = .error .saltDecode)
  ∧ (∀ salt, P.b64decode w.salt = some salt → P.b64decode w.iv = none →
      decrypt_private_key P w password = .error .ivDecode)
  ∧ (∀ salt iv, P.b64decode w.salt = some salt → P.b64decode w.iv = some iv →
      P.b64decode w.encrypted_private_key = none →
      decrypt_private_key P w password = .error .keyDecode)
  ∧ (∀ salt iv ek, P.b64decode w.salt = some salt → P.b64decode w.iv = some iv →
      P.b64decode w.encrypted_private_key = some ek → salt.length ≠ 16 →
      decrypt_private_key P w password = .error (.saltLen salt.length))
  ∧ (∀ salt iv ek, P.b64decode w.salt = some salt → P.b64decode w.iv = some iv →
      P.b64decode w.encrypted_private_key = some ek → salt.length = 16 → iv.length ≠ 16 →
      decrypt_private_key P w password = .error (.ivLen iv.length))
  ∧ (∀ salt iv ek, P.b64decode w.salt = some salt → P.b64decode w.iv = some iv →
      P.b64decode w.encrypted_private_key = some ek → salt.length = 16 → iv.length = 16 →
      ek.length % 16 ≠ 0 →
      decrypt_private_key P w password = .error (.ctLen ek.length))
  ∧ (∀ salt iv ek, P.b64decode w.salt = some salt → P.b64decode w.iv = some iv →
      P.b64decode w.encrypted_private_key = some ek → salt.length = 16 → iv.length = 16 →
      ek.length % 16 = 0 →
      pkcs7_unpad (concatBytes (cbc_decrypt P (P.scrypt password salt) iv (toBlocks ek))) = none →
      decrypt_private_key P w password = .error .unpadFailed)
  ∧ (∀ salt iv ek pt, P.b64decode w.salt = some salt → P.b64decode w.iv = some iv →
      P.b64decode w.encrypted_private_key = some ek → salt.length = 16 → iv.length = 16 →
      ek.length % 16 = 0 →
      pkcs7_unpad (concatBytes (cbc_decrypt P (P.scrypt password salt) iv (toBlocks ek)))
        = some pt →
      pt.length ≠ 32 →
      decrypt_private_key P w password = .error (.ptLen pt.length))
  ∧ (∀ s, decrypt_private_key P w password = .ok s →
      ∃ pt, pt.length = 32 ∧ s = "0x" ++ hexOfBytes pt) := by
  refine ⟨?_, ?_, ?_, ?_, ?_, ?_, ?_, ?_, ?_⟩
  · intro h
    simp [decrypt_private_key, h]
  · intro salt h1 h2
    simp [decrypt_private_key, h1, h2]
  · intro salt iv h1 h2 h3
    simp [decrypt_private_key, h1, h2, h3]
  · intro salt iv ek h1 h2 h3 h4
    simp [decrypt_private_key, h1, h2, h3, h4]
  · intro salt iv ek h1 h2 h3 h4 h5
    simp [decrypt_private_key, h1, h2, h3, h4, h5]
  · intro salt iv ek h1 h2 h3 h4 h5 h6
    simp [decrypt_private_key, h1, h2, h3, h4, h5, h6]
  · intro salt iv ek h1 h2 h3 h4 h5 h6 h7
    simp [decrypt_private_key, h1, h2, h3, h4, h5, h6, h7]
  · intro salt iv ek pt h1 h2 h3 h4 h5 h6 h7 h8
    simp [decrypt_private_key, h1, h2, h3, h4, h5, h6, h7, h8]
  · intro s h
    unfold decrypt_private_key at h
    cases h1 : P.b64decode w.salt with
    | none => simp only [h1] at h; exact Except.noConfusion h
    | some salt =>
      simp only [h1] at h
      cases h2 : P.b64decode w.iv with
      | none => simp only [h2] at h; exact Except.noConfusion h
      | some iv =>
        simp only [h2] at h
        cases h3 : P.b64decode w.encrypted_private_key with
        | none => simp only [h3] at h; exact Except.noConfusion h
        | some ek =>
          simp only [h3] at h
          by_cases c1 : salt.length ≠ 16
          · rw [if_pos c1] at h; exact Except.noConfusion h
          · rw [if_neg c1] at h
            by_cases c2 : iv.length ≠ 16
            · rw [if_pos c2] at h; exact Except.noConfusion h
            · rw [if_neg c2] at h
              by_cases c3 : ek.length % 16 ≠ 0
              · rw [if_pos c3] at h; exact Except.noConfusion h
              · rw [if_neg c3] at h
                cases h4 : pkcs7_unpad (concatBytes
                    (cbc_decrypt P (P.scrypt password salt) iv (toBlocks ek))) with
                | none => simp only [h4] at h; exact Except.noConfusion h
                | some pt =>
                  simp only [h4] at h
                  by_cases c4 : pt.length ≠ 32
                  · rw [if_pos c4] at h; exact Except.noConfusion h
                  · rw [if_neg c4] at h
                    refine ⟨pt, by omega, ?_⟩
                    exact (Except.ok.inj h).symm

/-- Primitives whose base64 decoder always fails — to evaluate the error
path ("Failed to decode salt") on a concrete record. -/
def witnessPrimsBad : CipherPrims :=
  { scrypt := fun _ _ => []
    encBlock := fun _ b => b
    decBlock := fun _ b => b
    b64encode := fun _ => ""
    b64decode := fun _ => none }

/-- Witness for C2: a record whose salt does not decode yields the
salt-decoding error. -/
theorem decrypt_private_key_error_conditions_witness :
    decrypt_private_key witnessPrimsBad (mkWallet 1 "A") [] = .error .saltDecode :=
  (decrypt_private_key_error_conditions witnessPrimsBad (mkWallet 1 "A") []).1 rfl

/-! ## Receipt polling (`TransferCommand::execute`, src/commands/transfer.rs 131-183)

`EthClient::get_transaction_receipt` returns `Err` both on transport
failure and when the chain has no receipt yet ("Transaction receipt not
found"), so one poll is modelled as `Option Receipt` indexed by the call
number. The loop starts with `retries = 5`; a failed poll with
`retries > 0` decrements and sleeps 2 seconds, a failed poll with
`retries = 0` gives up. Both the receipt case and the give-up case
return `Ok(TransferResult)` in the source — giving up is a non-error
pending outcome, not a propagated failure. -/

/-- The fields of a chain receipt the transfer command reads. -/
structure Receipt where
  status : Option Nat
  gas_used : Option Nat
  effective_gas_price : Option Nat
deriving Repr, DecidableEq

/-- The fields of `TransferResult` the polling claim is about. -/
structure TransferResult where
  tx_hash : Nat
  value : Nat
  status : Nat
  gas_used : Nat
  gas_price : Nat
deriving Repr, DecidableEq

/-- Observable trace of the retry loop: the receipt obtained (if any),
the number of `get_receipt` calls made, and the sleeps performed (in
seconds) between consecutive calls. -/
structure PollTrace where
  result : Option Receipt
  polls : Nat
  sleeps : List Nat
deriving Repr, DecidableEq

/-- The retry loop (lines 132-158): `get i` is the outcome of the i-th
`get_transaction_receipt` call. -/
def poll_receipt_go (get : Nat → Option Receipt) : Nat → Nat → List Nat → PollTrace
  | retries, i, sleeps =>
    match get i with
    | some r => { result := some r, polls := i + 1, sleeps := sleeps }
    | none =>
      match retries with
      | retries' + 1 => poll_receipt_go get retries' (i + 1) (sleeps ++ [2])
      | 0 => { result := none, polls := i + 1, sleeps := sleeps }

/-- The loop entered with `let mut retries = 5`. -/
def await_confirmation (get : Nat → Option Receipt) : PollTrace :=
  poll_receipt_go get 5 0 []

/-- The tail of `TransferCommand::execute` (lines 140-183): on give-up,
return the pending `TransferResult` — same transaction hash, zeroed gas
fields, status 0 — as a *successful* (`Ok`) return; on a receipt,
classify via `receipt.status.unwrap_or(0)`. -/
def confirm_transfer (tx_hash value : Nat) (get : Nat → Option Receipt) :
    TransferResult × PollTrace :=
  let t := await_confirmation get
  match t.result with
  | none =>
    ({ tx_hash := tx_hash, value := value, status := 0, gas_used := 0, gas_price := 0 }, t)
  | some r =>
    ({ tx_hash := tx_hash, value := value, status := r.status.getD 0,
       gas_used := r.gas_used.getD 0, gas_price := r.effective_gas_price.getD 0 }, t)

/-- A chain that reports no receipt for the first 5 polls and a success
receipt from the 6th poll on. -/
def fiveFailPolls (i : Nat) : Option Receipt :=
  if i < 5 then none else some { status := some 1, gas_used := some 10, effective_gas_price := some 3 }

/-- **C7 counterexample.** The claim's retry budget is "5 attempts", and
its source scenario says a chain yielding no receipt for 5 polls makes
the workflow return the pending outcome. On the code, a chain that
yields no receipt on each of the first 5 polls and a receipt on the 6th
produces a *confirmed* transfer (status 1) after 6 polls — the loop
makes one initial attempt plus 5 retries, so 5 empty polls are not
enough for the pending outcome and the poll count in the all-fail path
is 6, not 5. -/
theorem receipt_poll_budget_is_six_not_five :
    (fiveFailPolls 0 = none ∧ fiveFailPolls 1 = none ∧ fiveFailPolls 2 = none
      ∧ fiveFailPolls 3 = none ∧ fiveFailPolls 4 = none)
  ∧ (confirm_transfer 99 7 fiveFailPolls).2.polls = 6
  ∧ (confirm_transfer 99 7 fiveFailPolls).1.status = 1 := by
  decide

/-- **C7 (amended).** Receipt confirmation polls `get_receipt` up to 6
times — an initial attempt plus a fixed retry budget of 5 — with a fixed
2-second sleep between consecutive attempts; when all 6 attempts yield
no receipt, the workflow returns (as `Ok`, not an error) the pending
outcome: a `TransferResult` that preserves the transaction id with
status 0, after exactly 6 polls and 5 two-second sleeps. -/
theorem receipt_poll_exhaustion_pending (get : Nat → Option Receipt) (tx_hash value : Nat)
    (h : ∀ i, i < 6 → get i = none) :
    confirm_transfer tx_hash value get
      = ({ tx_hash := tx_hash, value := value, status := 0, gas_used := 0, gas_price := 0 },
         { result := none, polls := 6, sleeps := [2, 2, 2, 2, 2] }) := by
  have h0 := h 0 (by omega)
  have h1 := h 1 (by omega)
  have h2 := h 2 (by omega)
  have h3 := h 3 (by omega)
  have h4 := h 4 (by omega)
  have h5 := h 5 (by omega)
  simp [confirm_transfer, await_confirmation, poll_receipt_go, h0, h1, h2, h3, h4, h5]

/-- Witness for the amended C7: a chain that never has the receipt. -/
theorem receipt_poll_exhaustion_pending_witness :
    confirm_transfer 42 11 (fun _ => none)
      = ({ tx_hash := 42, value := 11, status := 0, gas_used := 0, gas_price := 0 },
         { result := none, polls := 6, sleeps := [2, 2, 2, 2, 2] }) :=
  receipt_poll_exhaustion_pending (fun _ => none) 42 11 (fun _ _ => rfl)

/-! ## Balance checks of `EthClient::send_transaction` (src/utils/eth.rs 91-192)

Every RPC the method performs is a field of `ChainState`; `none` models
the RPC failing (mapped to an error), `some` its value. `U256`
quantities are `Nat` (ruint `U256` panics on overflow rather than
wrapping). The method checks, before any broadcast: that the RBTC
balance covers the estimated gas cost `gas_price * 100_000` (both
transfer kinds); for a token transfer, that the token balance covers the
amount; for a native transfer, that the RBTC balance covers
`amount + estimated_gas_cost`. An `Except.error` return means
`provider.send_transaction` was never called. -/

/-- Outcomes of the chain RPCs consumed by `send_transaction`. -/
structure ChainState where
  nonce : Option Nat
  gas_price : Option Nat
  rbtc_balance : Option Nat
  token_balance : Option Nat
  chain_id : Option Nat
  gas_estimate : Option Nat
  broadcast_hash : Option Nat
deriving Repr, DecidableEq

/-- Error kinds of `send_transaction` (one per `anyhow!` return). -/
inductive SendError
  | noWalletConfigured
  | nonceFailed
  | gasPriceFailed
  | balanceFailed
  | insufficientGasFunds
  | chainIdFailed
  | tokenBalanceFailed
  | insufficientTokenBalance
  | insufficientNative
  | estimateFailed
  | sendFailed
deriving Repr, DecidableEq

/-- The transaction request handed to `provider.send_transaction`: for a
token transfer `to` is the token contract, the value is zero and the
transfer recipient/amount travel in the calldata. -/
structure BroadcastTx where
  to_addr : Nat
  value : Nat
  calldata_to : Option Nat
  calldata_amount : Option Nat
  nonce : Nat
  gas_price : Nat
  gas_limit : Nat
  chain_id : Nat
deriving Repr, DecidableEq

/-- Mirror of `EthClient::send_transaction` (lines 91-192). -/
def send_transaction (has_wallet : Bool) (ch : ChainState) (to_addr amount : Nat)
    (token_address : Option Nat) : Except SendError BroadcastTx :=
  if ¬ has_wallet then .error .noWalletConfigured
  else match ch.nonce with
  | none => .error .nonceFailed
  | some nonce =>
    match ch.gas_price with
    | none => .error .gasPriceFailed
    | some gas_price =>
      match ch.rbtc_balance with
      | none => .error .balanceFailed
      | some rbtc_balance =>
        let estimated_gas_cost := gas_price * 100000
        if rbtc_balance < estimated_gas_cost then .error .insufficientGasFunds
        else match ch.chain_id with
        | none => .error .chainIdFailed
        | some chain_id =>
          match token_address with
          | some token_addr =>
            match ch.token_balance with
            | none => .error .tokenBalanceFailed
            | some token_balance =>
              if token_balance < amount then .error .insufficientTokenBalance
              else match ch.gas_estimate with
              | none => .error .estimateFailed
              | some gas_estimate =>
                match ch.broadcast_hash with
                | none => .error .sendFailed
                | some _ =>
                  .ok { to_addr := token_addr, value := 0, calldata_to := some to_addr,
                        calldata_amount := some amount, nonce := nonce,
                        gas_price := gas_price, gas_limit := gas_estimate,
                        chain_id := chain_id }
          | none =>
            if rbtc_balance < amount + estimated_gas_cost then .error .insufficientNative
            else match ch.gas_estimate with
            | none => .error .estimateFailed
            | some gas_estimate =>
              match ch.broadcast_hash with
              | none => .error .sendFailed
              | some _ =>
                .ok { to_addr := to_addr, value := amount, calldata_to := none,
                      calldata_amount := none, nonce := nonce,
                      gas_price := gas_price, gas_limit := gas_estimate,
                      chain_id := chain_id }

/-- **C8.** `send_transaction` checks balance sufficiency before any
broadcast: a token transfer whose token balance is below the amount
fails with the insufficient-token error regardless of the broadcast RPC
(so no broadcast call is made); a native transfer broadcasts only when
the RBTC balance covers `amount + estimated fee`; and a token transfer
broadcasts only when the RBTC balance still covers the fee and the token
balance covers the amount (the fee being the code's estimate
`gas_price * 100_000`). -/
theorem send_transaction_balance_checks :
    (∀ (ch : ChainState) (to_addr amount token_addr nonce gas_price rbtc tokbal cid : Nat),
        ch.nonce = some nonce → ch.gas_price = some gas_price →
        ch.rbtc_balance = some rbtc → ¬ rbtc < gas_price * 100000 →
        ch.chain_id = some cid → ch.token_balance = some tokbal → tokbal < amount →
        send_transaction true ch to_addr amount (some token_addr)
          = .error .insufficientTokenBalance)
  ∧ (∀ (ch : ChainState) (to_addr amount : Nat) (tx : BroadcastTx),
        send_transaction true ch to_addr amount none = .ok tx →
        ∃ gas_price rbtc, ch.gas_price = some gas_price ∧ ch.rbtc_balance = some rbtc
          ∧ gas_price * 100000 ≤ rbtc ∧ amount + gas_price * 100000 ≤ rbtc)
  ∧ (∀ (ch : ChainState) (to_addr amount token_addr : Nat) (tx : BroadcastTx),
        send_transaction true ch to_addr amount (some token_addr) = .ok tx →
        ∃ gas_price rbtc tokbal, ch.gas_price = some gas_price
          ∧ ch.rbtc_balance = some rbtc ∧ ch.token_balance = some tokbal
          ∧ gas_price * 100000 ≤ rbtc ∧ amount ≤ tokbal) := by
  refine ⟨?_, ?_, ?_⟩
  · intro ch to_addr amount token_addr nonce gas_price rbtc tokbal cid hn hg hb hfee hc ht hlt
    simp [send_transaction, hn, hg, hb, hfee, hc, ht, hlt]
  · intro ch to_addr amount tx h
    unfold send_transaction at h
    rw [if_neg (by simp)] at h
    cases hn : ch.nonce with
    | none => simp only [hn] at h; exact Except.noConfusion h
    | some nonce =>
      simp only [hn] at h
      cases hg : ch.gas_price with
      | none => simp only [hg] at h; exact Except.noConfusion h
      | some gas_price =>
        simp only [hg] at h
        cases hb : ch.rbtc_balance with
        | none => simp only [hb] at h; exact Except.noConfusion h
        | some rbtc =>
          simp only [hb] at h
          by_cases hfee : rbtc < gas_price * 100000
          · rw [if_pos hfee] at h; exact Except.noConfusion h
          · rw [if_neg hfee] at h
            cases hc : ch.chain_id with
            | none => simp only [hc] at h; exact Except.noConfusion h
            | some cid =>
              simp only [hc] at h
              by_cases hnat : rbtc < amount + gas_price * 100000
              · rw [if_pos hnat] at h; exact Except.noConfusion h
              · exact ⟨gas_price, rbtc, rfl, rfl, by omega, by omega⟩
  · intro ch to_addr amount token_addr tx h
    unfold send_transaction at h
    rw [if_neg (by simp)] at h
    cases hn : ch.nonce with
    | none => simp only [hn] at h; exact Except.noConfusion h
    | some nonce =>
      simp only [hn] at h
      cases hg : ch.gas_price with
      | none => simp only [hg] at h; exact Except.noConfusion h
      | some gas_price =>
        simp only [hg] at h
        cases hb : ch.rbtc_balance with
        | none => simp only [hb] at h; exact Except.noConfusion h
        | some rbtc =>
          simp only [hb] at h
          by_cases hfee : rbtc < gas_price * 100000
          · rw [if_pos hfee] at h; exact Except.noConfusion h
          · rw [if_neg hfee] at h
            cases hc : ch.chain_id with
            | none => simp only [hc] at h; exact Except.noConfusion h
            | some cid =>
              simp only [hc] at h
              cases ht : ch.token_balance with
              | none => simp only [ht] at h; exact Except.noConfusion h
              | some tokbal =>
                simp only [ht] at h
                by_cases hlt : tokbal < amount
                · rw [if_pos hlt] at h; exact Except.noConfusion h
                · exact ⟨gas_price, rbtc, tokbal, rfl, rfl, rfl, by omega, by omega⟩

/-- The spec's scenario chain: token balance 0, plenty of RBTC. -/
def zeroTokenChain : ChainState :=
  { nonce := some 0, gas_price := some 1, rbtc_balance := some 10000000,
    token_balance := some 0, chain_id := some 30, gas_estimate := some 21000,
    broadcast_hash := none }

/-- Witness for C8: a token transfer of amount 100 against token balance
0 fails with the insufficient-token error even though the broadcast RPC
of `zeroTokenChain` would itself fail — showing the broadcast is never
consulted. -/
theorem send_transaction_balance_checks_witness :
    send_transaction true zeroTokenChain 5 100 (some 77)
      = .error .insufficientTokenBalance :=
  send_transaction_balance_checks.1 zeroTokenChain 5 100 77 0 1 10000000 0 30
    rfl rfl rfl (by omega) rfl rfl (by omega)

end RskCli
